import Mathlib

/-!
Shallow embedding of the blog application in app/old_app.py: the Entry model
(slug derivation, save, search-index synchronisation), the FTSEntry
search-document table, the query helpers (public, drafts, search) and the
route handlers (index, drafts, create, edit, detail), together with theorems
checking the specification claims about them.

Machine conventions: store-assigned integer primary keys are modelled as
positive naturals, with id = 0 standing for the Python None of an unsaved
row; timestamps are naturals; the persistence layer is an explicit record of
table contents threaded through each operation. Regular-expression and
string primitives from Python are modelled over the ASCII range.
-/

set_option maxHeartbeats 1000000

/-- Python exceptions and the 404 signal that the handlers can surface. -/
inductive PyError
  | attributeError
  | nameError
  | notFound
  deriving Repr, DecidableEq

/-- Row of the Entry table (class Entry, lines 36-42): title, slug, content,
published, timestamp, plus the implicit auto-increment primary key id of a
peewee model. An id of 0 models an unsaved instance (Python None). -/
structure Entry where
  title : String
  slug : String
  content : String
  published : Bool
  timestamp : Nat
  id : Nat
  deriving Repr, DecidableEq

/-- Row of the FTSEntry virtual table (class FTSEntry, lines 128-133):
docid is the rowid primary key of the FTS model, entry_id the foreign
reference to an Entry. -/
structure FTSEntry where
  docid : Nat
  entry_id : Nat
  content : String
  deriving Repr, DecidableEq

/-- The persistent state: contents of the two tables, the next free
primary keys, and the current clock used for the timestamp default of
datetime.datetime.now. -/
structure DB where
  entries : List Entry
  fts : List FTSEntry
  nextId : Nat
  nextDocid : Nat
  now : Nat
  deriving Repr, DecidableEq

/-- A word character of the regular expression class backslash-w, over the
ASCII range: letters, digits and the underscore. -/
def isWordChar (c : Char) : Bool := c.isAlphanum || c == '_'

/-- Python str.lower over the ASCII range. -/
def pyLower (s : String) : String := ⟨s.toList.map Char.toLower⟩

/-- Scanner for re.sub applied with pattern [^\w]+ and replacement '-':
left to right, a word character is kept, and a non-word character is
replaced by '-' when it opens a run and dropped when the flag says the
scanner is already inside a non-word run, so each maximal run yields a
single '-'. -/
def reSubNonWordAux (inRun : Bool) : List Char → List Char
  | [] => []
  | c :: cs =>
    if isWordChar c then c :: reSubNonWordAux false cs
    else if inRun then reSubNonWordAux true cs
    else '-' :: reSubNonWordAux true cs

/-- The slug derivation of Entry.save (line 66):
re.sub applied to the lower-cased title. -/
def slugify (s : String) : String := ⟨reSubNonWordAux false (pyLower s).toList⟩

/-- Scanner for Python str.split with no separator argument, as used by
Entry.search (line 100): whitespace ends the token accumulated so far (kept
in reverse), and maximal runs of non-whitespace characters become the
tokens, so no empty token is ever produced. -/
def pySplitAux (acc : List Char) : List Char → List String
  | [] => if acc.isEmpty then [] else [⟨acc.reverse⟩]
  | c :: cs =>
    if c.isWhitespace then
      if acc.isEmpty then pySplitAux [] cs
      else (⟨acc.reverse⟩ : String) :: pySplitAux [] cs
    else pySplitAux (c :: acc) cs

/-- Python str.split with no separator argument, on a String. -/
def pySplit (s : String) : List String := pySplitAux [] s.toList

/-- Python str.strip with no argument: drop whitespace from both ends. -/
def pyStrip (s : String) : String :=
  ⟨((s.toList.dropWhile Char.isWhitespace).reverse.dropWhile
      Char.isWhitespace).reverse⟩

/-- The search-document text of Entry.update_search_index (line 87):
the join of title and content with a line break. -/
def ftsContent (e : Entry) : String := e.title ++ "\n" ++ e.content

/-- Entry.update_search_index (lines 73-88): fetch the FTSEntry row whose
entry_id matches the id of the saved entry; if none exists insert a fresh row
(force_insert path, taking a new docid), otherwise overwrite the content
field of the existing row in place, keyed by its docid primary key. -/
def Entry.update_search_index (db : DB) (e : Entry) : DB :=
  match db.fts.find? fun f => f.entry_id == e.id with
  | some f =>
    { db with
        fts := db.fts.map fun g =>
          if g.docid == f.docid then { g with content := ftsContent e } else g }
  | none =>
    { db with
        fts := db.fts ++ [⟨db.nextDocid, e.id, ftsContent e⟩],
        nextDocid := db.nextDocid + 1 }

/-- The entry-write half of Entry.save (lines 64-67): derive the slug from
the title when the slug field is empty, then run the peewee model save,
which inserts with a fresh id when the primary key is unset and otherwise
updates the row with the matching id in place. Returns the saved instance
(with its assigned id) and the new table state. -/
def Entry.saveEntryWrite (db : DB) (e : Entry) : Entry × DB :=
  let e1 := if e.slug = "" then { e with slug := slugify e.title } else e
  if e1.id = 0 then
    let saved := { e1 with id := db.nextId }
    (saved, { db with entries := db.entries ++ [saved], nextId := db.nextId + 1 })
  else
    (e1, { db with
             entries := db.entries.map fun x => if x.id == e1.id then e1 else x })

/-- Entry.save (lines 64-71): the entry write followed by
update_search_index. The flag ftsOk injects the outcome of the underlying
search-index write: when it is false the FTSEntry save raises, the exception
propagates out of Entry.save (error result), and the entry write that has
already happened is left in place, since the source wraps the two physical
writes in no transaction. -/
def Entry.save (ftsOk : Bool) (db : DB) (e : Entry) : Except Unit Entry × DB :=
  let (saved, db1) := Entry.saveEntryWrite db e
  if ftsOk then (.ok saved, Entry.update_search_index db1 saved)
  else (.error (), db1)

/-- Entry.save on the normal path, where the search-index write succeeds. -/
def Entry.saveOk (db : DB) (e : Entry) : Entry × DB :=
  let (saved, db1) := Entry.saveEntryWrite db e
  (saved, Entry.update_search_index db1 saved)

/-- Entry.public (lines 90-92): the entries with published = True. -/
def Entry.public (db : DB) : List Entry :=
  db.entries.filter fun e => e.published == true

/-- Entry.drafts classmethod (lines 94-96): the entries with
published = False. -/
def Entry.drafts (db : DB) : List Entry :=
  db.entries.filter fun e => e.published == false

/-- Entry.search (lines 98-124), parameterised by the MATCH operator and
the rank function of the SQLite FTS extension (external store primitives):
split the query on whitespace and strip the pieces; with no non-empty words
left, return the entries whose id equals 0 (an always-empty guard query);
otherwise join FTSEntry to Entry on entry_id, keep published entries whose
document matches, and order by descending score. -/
def Entry.search (fmatch : String → String → Bool)
    (rank : String → FTSEntry → Int) (db : DB) (query : String) :
    List Entry :=
  let words := ((pySplit query).map pyStrip).filter fun w => w ≠ ""
  if words.isEmpty then db.entries.filter fun e => e.id == 0
  else
    let searchTerm := " ".intercalate words
    let rows := db.fts.filterMap fun f =>
      (db.entries.find? fun e => e.id == f.entry_id).map fun e => (f, e)
    let hits := rows.filter fun r =>
      r.2.published == true && fmatch searchTerm r.1.content
    (hits.insertionSort fun a b =>
      rank searchTerm b.1 ≤ rank searchTerm a.1).map fun r => r.2

/-- Ordering helper of the index and drafts routes:
order_by(Entry.timestamp.desc()). The insertion sort is stable, matching the
deterministic tie-break the store provides for repeated identical queries. -/
def sortByTimestampDesc (l : List Entry) : List Entry :=
  l.insertionSort fun a b => b.timestamp ≤ a.timestamp

/-- The index route (lines 168-184): with a non-empty q argument run
Entry.search, otherwise (q absent, or present and empty, both falsy in
Python) list Entry.public ordered by timestamp descending. Pagination by
object_list is presentation glue outside the core. -/
def index (fmatch : String → String → Bool) (rank : String → FTSEntry → Int)
    (db : DB) (searchQuery : Option String) : List Entry :=
  match searchQuery with
  | some q => if q ≠ "" then Entry.search fmatch rank db q
              else sortByTimestampDesc (Entry.public db)
  | none => sortByTimestampDesc (Entry.public db)

/-- The drafts route (lines 186-190). The source evaluates
Entry.drafts.order_by(Entry.timestamp.desc()): Entry.drafts without call
parentheses is the bound classmethod object, not a query, so the attribute
lookup of order_by on it raises AttributeError before any rows are read;
the handler never produces a listing. -/
def drafts (_db : DB) : Except PyError (List Entry) := .error .attributeError

/-- The listing the drafts route builds once the classmethod is actually
called: Entry.drafts() ordered by timestamp descending, the draft
counterpart of the public branch of the index route. -/
def draftsListing (db : DB) : List Entry := sortByTimestampDesc (Entry.drafts db)

/-- Responses of the create and edit handlers that the claims observe. -/
inductive Resp
  | redirectDetail (slug : String)
  | redirectEdit (slug : String)
  | renderCreate
  | renderEdit
  deriving Repr, DecidableEq

/-- Entry.create as invoked on line 198: construct an unsaved instance with
the given fields, the timestamp defaulting to the current clock, and save
it. -/
def Entry.create (db : DB) (title content : String) (published : Bool) :
    Entry × DB :=
  Entry.saveOk db ⟨title, "", content, published, db.now, 0⟩

/-- The POST branch of the create route (lines 193-206): when both title and
content are non-empty (truthy) create and save the entry, then redirect to
detail or edit depending on published; otherwise flash an error and render
the form again, touching no table. -/
def create (db : DB) (title content : String) (published : Bool) :
    Except PyError Resp × DB :=
  if title ≠ "" && content ≠ "" then
    let (e, db') := Entry.create db title content published
    if e.published then (.ok (.redirectDetail e.slug), db')
    else (.ok (.redirectEdit e.slug), db')
  else (.ok .renderCreate, db)

/-- The POST branch of the edit route (lines 208-225). The source never
fetches the entry being edited, so the local name entry is unbound in both
branches: with valid fields the first attribute assignment on line 213
raises NameError before any save, and with missing fields the final
render_template call on line 225 references the unbound name as well. No
table is ever written. -/
def edit (db : DB) (_slug title content : String) (_published : Bool) :
    Except PyError Resp × DB :=
  if title ≠ "" && content ≠ "" then (.error .nameError, db)
  else (.error .nameError, db)

/-- The detail route up to its lookup (lines 227-233): authenticated callers
query the whole Entry table, anonymous callers only Entry.public, and
get_object_or_404 returns the first row with the requested slug or signals
404. Handing the found entry to the template renderer is presentation glue
outside the core. -/
def detail (loggedIn : Bool) (db : DB) (slug : String) : Except PyError Entry :=
  let query := if loggedIn then db.entries else Entry.public db
  match query.find? fun e => e.slug == slug with
  | some e => .ok e
  | none => .error .notFound

/-- SITE_WIDTH (line 28), the configured maximum embed width. -/
def SITE_WIDTH : Nat := 800

/-- A token the embed-resolution pass treats as a bare link. -/
def isBareUrl (tok : String) : Bool :=
  "http://".toList.isPrefixOf tok.toList ||
    "https://".toList.isPrefixOf tok.toList

/-- Modelled from the spec: the embed-resolution step of the external
micawber library (parse_html with urlize_all, lines 54-58, the library
itself is not part of this repository). Each bare media URL in the rendered
HTML is offered to the embed lookup service together with the max-width
hint; a provider response replaces the link with its rich markup, and a
no-provider answer degrades to leaving the URL as a plain link. -/
def parse_html (embed : String → Nat → Option String) (maxwidth : Nat)
    (html : String) : String :=
  " ".intercalate ((pySplit html).map fun tok =>
    if isBareUrl tok then
      match embed tok maxwidth with
      | some markup => markup
      | none => "<a href=\"" ++ tok ++ "\">" ++ tok ++ "</a>"
    else tok)

/-- The bare links of a rendered document, the URLs the embed service is
asked about. -/
def bareUrls (html : String) : List String := (pySplit html).filter isBareUrl

/-- Entry.html_content (lines 44-61), parameterised by the external markdown
renderer and the embed lookup service: render the markdown source to HTML,
then expand embeddable URLs honouring SITE_WIDTH. The Markup wrapper only
marks the result trusted for the template layer. -/
def Entry.html_content (md : String → String)
    (embed : String → Nat → Option String) (e : Entry) : String :=
  let markdown_content := md e.content
  parse_html embed SITE_WIDTH markdown_content

/-- The wording of the specification for the slug rule, stated independently
of the regex model reSubNonWordAux so the two can be compared: each maximal
run of word characters is kept verbatim (takeWhile) and each maximal run of
non-word characters becomes a single separator. -/
def specReplaceRuns : List Char → List Char
  | [] => []
  | c :: cs =>
    if isWordChar c then
      (c :: cs.takeWhile isWordChar) ++ specReplaceRuns (cs.dropWhile isWordChar)
    else '-' :: specReplaceRuns (cs.dropWhile fun d => !isWordChar d)
termination_by l => l.length
decreasing_by
  · exact Nat.lt_succ_of_le (List.dropWhile_sublist _).length_le
  · exact Nat.lt_succ_of_le (List.dropWhile_sublist _).length_le

/-- The slug of the specification wording: the title lower-cased, with every
maximal run of non-word characters replaced by a single separator. -/
def specSlug (s : String) : String := ⟨specReplaceRuns (pyLower s).toList⟩

/-- The docid the search document of a given entry id ends up under: the
docid of the existing document if there is one, else the next free docid. -/
def savedDocid (db : DB) (eid : Nat) : Nat :=
  match db.fts.find? fun f => f.entry_id == eid with
  | some f => f.docid
  | none => db.nextDocid

/-- Well-formedness of the search-index table as the store maintains it:
entry ids and docids are unique across FTSEntry rows, docids are below the
next free docid, and every indexed entry id is below the next free entry
id. -/
structure IndexWf (db : DB) : Prop where
  eids : db.fts.Pairwise fun a b => a.entry_id ≠ b.entry_id
  docids : db.fts.Pairwise fun a b => a.docid ≠ b.docid
  docid_lt : ∀ f ∈ db.fts, f.docid < db.nextDocid
  eid_lt : ∀ f ∈ db.fts, f.entry_id < db.nextId

theorem pySplitAux_eq_nil {l : List Char} (h : ∀ c ∈ l, c.isWhitespace) :
    pySplitAux [] l = [] := by
  induction l with
  | nil => rfl
  | cons c cs ih =>
    have hc : c.isWhitespace := h c (List.mem_cons_self c cs)
    simp only [pySplitAux, hc, if_true, List.isEmpty_nil]
    exact ih fun d hd => h d (List.mem_cons_of_mem _ hd)

/-- In a list whose designated keys are pairwise distinct, two members with
the same key are the same element. -/
theorem eq_of_pairwise_key {α β : Type} (key : α → β) {l : List α}
    (hp : l.Pairwise fun a b => key a ≠ key b) {x y : α}
    (hx : x ∈ l) (hy : y ∈ l) (h : key x = key y) : x = y := by
  induction l with
  | nil => cases hx
  | cons a tl ih =>
    rcases List.pairwise_cons.mp hp with ⟨ha, htl⟩
    rcases List.mem_cons.mp hx with rfl | hx'
    · rcases List.mem_cons.mp hy with rfl | hy'
      · rfl
      · exact absurd h (ha y hy')
    · rcases List.mem_cons.mp hy with rfl | hy'
      · exact absurd h.symm (ha x hx')
      · exact ih htl hx' hy'

/-- C4: for every query string consisting only of whitespace (the empty
string included), Entry.search returns the empty result sequence and never
falls through to listing all entries; the guard query on id 0 matches no
store-assigned row. -/
theorem C4_whitespace_query_yields_nothing (fmatch : String → String → Bool)
    (rank : String → FTSEntry → Int) (db : DB) (q : String)
    (hq : ∀ c ∈ q.toList, c.isWhitespace)
    (hid : ∀ e ∈ db.entries, e.id ≠ 0) :
    Entry.search fmatch rank db q = [] := by
  have hsplit : pySplit q = [] := pySplitAux_eq_nil hq
  simp only [Entry.search, hsplit, List.map_nil, List.filter_nil,
    List.isEmpty_nil, if_true]
  exact List.filter_eq_nil_iff.mpr fun e he => by simpa using hid e he

theorem C4_whitespace_query_yields_nothing_witness :
    Entry.search (fun _ _ => true) (fun _ _ => 0)
      ⟨[⟨"T", "t", "C", true, 5, 1⟩], [⟨1, 1, "T\nC"⟩], 2, 2, 9⟩ "  " = [] :=
  C4_whitespace_query_yields_nothing _ _ _ _ (by decide) (by decide)

/-- C5: for every query and database state, Entry.search only ever returns
entries with published = true, whatever the MATCH operator and rank function
of the store do; a term occurring only in an unpublished entry yields no
result. -/
theorem C5_search_results_published (fmatch : String → String → Bool)
    (rank : String → FTSEntry → Int) (db : DB) (q : String)
    (hid : ∀ e ∈ db.entries, e.id ≠ 0) :
    ∀ e ∈ Entry.search fmatch rank db q, e.published = true := by
  intro e he
  simp only [Entry.search] at he
  split at he
  · obtain ⟨hmem, h0⟩ := List.mem_filter.mp he
    exact absurd (by simpa using h0) (hid e hmem)
  · obtain ⟨r, hr, rfl⟩ := List.mem_map.mp he
    have hr' := (List.mem_insertionSort _).mp hr
    have hkeep := (List.mem_filter.mp hr').2
    simp only [Bool.and_eq_true, beq_iff_eq] at hkeep
    exact hkeep.1

theorem C5_search_results_published_witness :
    (⟨"Hello", "hello", "World", true, 5, 1⟩ : Entry).published = true :=
  C5_search_results_published (fun _ _ => true) (fun _ _ => 0)
    ⟨[⟨"Hello", "hello", "World", true, 5, 1⟩], [⟨1, 1, "Hello\nWorld"⟩], 2, 2, 9⟩
    "hello" (by decide) _ (by decide)

/-- C7: the drafts route never returns the draft listing: evaluating
Entry.drafts.order_by on the bound classmethod object raises AttributeError,
even though the Entry.drafts query itself selects exactly the unpublished
entries. -/
theorem C7_drafts_route_raises (db : DB) :
    drafts db = .error .attributeError ∧
    ∀ e, e ∈ Entry.drafts db ↔ e ∈ db.entries ∧ e.published = false := by
  refine ⟨rfl, fun e => ?_⟩
  simp [Entry.drafts, List.mem_filter]

/-- C8: a create or edit request with a missing or empty title or content
field is rejected before any store write: the table state is unchanged, so
no entry is created or modified and no search document is touched. -/
theorem C8_validation_before_write (db : DB) (slug title content : String)
    (pub : Bool) (h : title = "" ∨ content = "") :
    (create db title content pub).2 = db ∧
    (edit db slug title content pub).2 = db := by
  refine ⟨?_, by simp [edit]⟩
  rcases h with h | h <;> simp [create, h]

theorem C8_validation_before_write_witness :
    (create ⟨[], [], 1, 1, 0⟩ "" "body" true).2 = ⟨[], [], 1, 1, 0⟩ ∧
    (edit ⟨[], [], 1, 1, 0⟩ "s" "" "body" true).2 = ⟨[], [], 1, 1, 0⟩ :=
  C8_validation_before_write ⟨[], [], 1, 1, 0⟩ "s" "" "body" true (Or.inl rfl)

/-- C6: with no search term the index route lists exactly the entries with
published = true, ordered by timestamp descending; no unpublished entry ever
appears in the public listing. -/
theorem C6_public_listing (fmatch : String → String → Bool)
    (rank : String → FTSEntry → Int) (db : DB) :
    (∀ e, e ∈ index fmatch rank db none ↔ e ∈ db.entries ∧ e.published = true) ∧
    (index fmatch rank db none).Pairwise fun a b => b.timestamp ≤ a.timestamp := by
  constructor
  · intro e
    simp [index, sortByTimestampDesc, Entry.public, List.mem_insertionSort,
      List.mem_filter]
  · have h := @List.sorted_insertionSort Entry
      (fun a b => b.timestamp ≤ a.timestamp) (fun a b => Nat.decLe _ _)
      ⟨fun a b => Nat.le_total b.timestamp a.timestamp⟩
      ⟨fun a b c hab hbc => Nat.le_trans hbc hab⟩ (Entry.public db)
    simpa [index, sortByTimestampDesc] using h

/-- C9: the content renderer is deterministic: two runs on the same markdown
content whose embed services answer identically on every bare link of the
rendered document produce the same html_content. -/
theorem C9_render_deterministic (md : String → String)
    (embed1 embed2 : String → Nat → Option String) (e : Entry)
    (h : ∀ url ∈ bareUrls (md e.content),
      embed1 url SITE_WIDTH = embed2 url SITE_WIDTH) :
    Entry.html_content md embed1 e = Entry.html_content md embed2 e := by
  simp only [Entry.html_content, parse_html]
  congr 1
  refine List.map_congr_left fun tok htok => ?_
  by_cases hu : isBareUrl tok = true
  · have hurl := h tok (List.mem_filter.mpr ⟨htok, hu⟩)
    rw [if_pos hu, if_pos hu, hurl]
  · rw [if_neg hu, if_neg hu]

theorem C9_render_deterministic_witness :
    Entry.html_content (fun s => s) (fun u _ => some (u ++ "!"))
        ⟨"T", "t", "see https://x.com", true, 0, 1⟩ =
      Entry.html_content (fun s => s)
        (fun u _ => if u = "https://x.com" then some (u ++ "!") else none)
        ⟨"T", "t", "see https://x.com", true, 0, 1⟩ :=
  C9_render_deterministic _ _ _ _ (by decide)

/-- C10: the detail lookup is visibility-gated: with unique slugs, an
anonymous request for the slug of an unpublished entry signals 404, while an
authenticated request retrieves any entry, published or not, by its slug. -/
theorem C10_detail_visibility_gated (db : DB) (e : Entry) (s : String)
    (hslugs : db.entries.Pairwise fun a b => a.slug ≠ b.slug)
    (hmem : e ∈ db.entries) (hs : e.slug = s) :
    (e.published = false → detail false db s = .error .notFound) ∧
    detail true db s = .ok e := by
  constructor
  · intro hpub
    have hnone : (Entry.public db).find? (fun x => x.slug == s) = none := by
      refine List.find?_eq_none.mpr fun x hx hxs => ?_
      obtain ⟨hx', hxpub⟩ := List.mem_filter.mp hx
      have hxeq : x = e := eq_of_pairwise_key Entry.slug hslugs hx' hmem
        (by rw [hs]; simpa using hxs)
      rw [hxeq, hpub] at hxpub
      simp at hxpub
    simp [detail, hnone]
  · cases hfind : db.entries.find? fun x => x.slug == s with
    | none =>
      have := List.find?_eq_none.mp hfind e hmem
      simp [hs] at this
    | some x =>
      have hxmem := List.mem_of_find?_eq_some hfind
      have hxs : x.slug = s := by simpa using List.find?_some hfind
      have hxeq : x = e :=
        eq_of_pairwise_key Entry.slug hslugs hxmem hmem (hxs.trans hs.symm)
      simp [detail, hfind, hxeq]

theorem C10_detail_visibility_gated_witness :
    detail false
        ⟨[⟨"P", "pub", "c", true, 2, 1⟩, ⟨"S", "secret", "c", false, 1, 2⟩],
          [], 3, 1, 0⟩ "secret" = .error .notFound ∧
    detail true
        ⟨[⟨"P", "pub", "c", true, 2, 1⟩, ⟨"S", "secret", "c", false, 1, 2⟩],
          [], 3, 1, 0⟩ "secret" = .ok ⟨"S", "secret", "c", false, 1, 2⟩ := by
  have h := C10_detail_visibility_gated
    ⟨[⟨"P", "pub", "c", true, 2, 1⟩, ⟨"S", "secret", "c", false, 1, 2⟩],
      [], 3, 1, 0⟩
    ⟨"S", "secret", "c", false, 1, 2⟩ "secret" (by decide) (by decide) rfl
  exact ⟨h.1 rfl, h.2⟩

/-- C2 counterexample: a failed search-index write is reported (Entry.save
propagates the error), but the two writes are not atomic: in the post-state
the entry (id 1) is persisted while no search document exists for it, the
divergent state the claim rules out. -/
theorem C2_counterexample :
    (Entry.save false ⟨[], [], 1, 1, 0⟩ ⟨"T", "", "C", true, 0, 0⟩).1 =
      Except.error () ∧
    ((Entry.save false ⟨[], [], 1, 1, 0⟩ ⟨"T", "", "C", true, 0, 0⟩).2.entries.countP
      fun x => x.id == 1) = 1 ∧
    ((Entry.save false ⟨[], [], 1, 1, 0⟩ ⟨"T", "", "C", true, 0, 0⟩).2.fts.countP
      fun f => f.entry_id == 1) = 0 :=
  ⟨rfl, rfl, rfl⟩

/-- C2 amended: when the search-index write fails, Entry.save reports
failure and leaves the search index untouched, but the entry write is not
rolled back: saving a fresh entry persists it even though its index update
never happened, so the two writes do not form one atomic transaction. -/
theorem C2_failed_index_write_not_atomic (db : DB) (e : Entry)
    (hid : e.id = 0) :
    (Entry.save false db e).1 = Except.error () ∧
    (Entry.save false db e).2.fts = db.fts ∧
    ∃ x ∈ (Entry.save false db e).2.entries,
      x.id = db.nextId ∧ x.title = e.title ∧ x.content = e.content := by
  by_cases hs : e.slug = "" <;>
    simp [Entry.save, Entry.saveEntryWrite, hs, hid] <;>
    exact ⟨_, Or.inr rfl, rfl, rfl, rfl⟩

theorem C2_failed_index_write_not_atomic_witness :
    (Entry.save false ⟨[], [], 5, 1, 0⟩ ⟨"A", "", "B", false, 3, 0⟩).1 =
      Except.error () ∧
    (Entry.save false ⟨[], [], 5, 1, 0⟩ ⟨"A", "", "B", false, 3, 0⟩).2.fts = [] ∧
    ∃ x ∈ (Entry.save false ⟨[], [], 5, 1, 0⟩ ⟨"A", "", "B", false, 3, 0⟩).2.entries,
      x.id = 5 ∧ x.title = "A" ∧ x.content = "B" :=
  C2_failed_index_write_not_atomic ⟨[], [], 5, 1, 0⟩ ⟨"A", "", "B", false, 3, 0⟩ rfl

/-- With a succeeding search-index write, Entry.save returns the saved
entry and the state of the normal path. -/
theorem save_true_eq (db : DB) (e : Entry) :
    Entry.save true db e =
      (Except.ok (Entry.saveOk db e).1, (Entry.saveOk db e).2) := by
  cases h : Entry.saveEntryWrite db e with
  | mk s d => simp [Entry.save, Entry.saveOk, h]

theorem spec_take_drop (l : List Char) :
    specReplaceRuns l =
      l.takeWhile isWordChar ++ specReplaceRuns (l.dropWhile isWordChar) := by
  cases l with
  | nil => simp [specReplaceRuns]
  | cons c cs =>
    by_cases hc : isWordChar c = true
    · rw [List.takeWhile_cons_of_pos hc, List.dropWhile_cons_of_pos hc]
      simp [specReplaceRuns, hc]
    · rw [List.takeWhile_cons_of_neg hc, List.dropWhile_cons_of_neg hc]
      simp

/-- The scanner of the source regex and the run-by-run wording of the
specification agree, in both scanner states: outside a non-word run they
produce the same output, and inside one the scanner output equals the spec
output of the remainder with the current non-word run dropped. -/
theorem reSubNonWordAux_eq_spec (l : List Char) :
    reSubNonWordAux false l = specReplaceRuns l ∧
    reSubNonWordAux true l =
      specReplaceRuns (l.dropWhile fun d => !isWordChar d) := by
  induction l with
  | nil => exact ⟨by simp [reSubNonWordAux, specReplaceRuns],
      by simp [reSubNonWordAux, specReplaceRuns]⟩
  | cons c cs ih =>
    by_cases hc : isWordChar c = true
    · have hspec : specReplaceRuns (c :: cs) =
          (c :: cs.takeWhile isWordChar) ++
            specReplaceRuns (cs.dropWhile isWordChar) := by
        simp [specReplaceRuns, hc]
      have hgoal : c :: reSubNonWordAux false cs = specReplaceRuns (c :: cs) := by
        rw [hspec, ih.1, spec_take_drop cs]; simp
      refine ⟨?_, ?_⟩
      · rw [show reSubNonWordAux false (c :: cs) =
            c :: reSubNonWordAux false cs from by simp [reSubNonWordAux, hc]]
        exact hgoal
      · rw [show reSubNonWordAux true (c :: cs) =
            c :: reSubNonWordAux false cs from by simp [reSubNonWordAux, hc]]
        rw [show ((c :: cs).dropWhile fun d => !isWordChar d) = c :: cs from
          List.dropWhile_cons_of_neg (by simp [hc])]
        exact hgoal
    · have hdrop : ((c :: cs).dropWhile fun d => !isWordChar d) =
          cs.dropWhile fun d => !isWordChar d :=
        List.dropWhile_cons_of_pos (by simp [hc])
      refine ⟨?_, ?_⟩
      · rw [show reSubNonWordAux false (c :: cs) =
            '-' :: reSubNonWordAux true cs from by simp [reSubNonWordAux, hc]]
        rw [show specReplaceRuns (c :: cs) =
            '-' :: specReplaceRuns (cs.dropWhile fun d => !isWordChar d) from by
          simp [specReplaceRuns, hc]]
        rw [ih.2]
      · rw [show reSubNonWordAux true (c :: cs) =
            reSubNonWordAux true cs from by simp [reSubNonWordAux, hc]]
        rw [hdrop, ih.2]

/-- The regex-based slug of the source equals the slug the specification
words describe. -/
theorem slugify_eq_specSlug (s : String) : slugify s = specSlug s :=
  congrArg String.mk (reSubNonWordAux_eq_spec (pyLower s).toList).1

/-- C3: saving an entry whose slug is empty and whose title is non-empty
assigns the slug obtained from the title by lower-casing it and replacing
every maximal run of non-word characters by a single separator. -/
theorem C3_slug_from_title (db : DB) (e : Entry)
    (hslug : e.slug = "") (_htitle : e.title ≠ "") :
    ∀ e' db', Entry.save true db e = (.ok e', db') →
      e'.slug = specSlug e.title := by
  intro e' db' hsave
  rw [← slugify_eq_specSlug]
  by_cases hid : e.id = 0 <;>
    simp [Entry.save, Entry.saveEntryWrite, hslug, hid, Prod.mk.injEq] at hsave <;>
    obtain ⟨h1, -⟩ := hsave <;>
    simp [← h1]

theorem C3_slug_from_title_witness :
    (⟨"Hello World", "hello-world", "# Hi", true, 0, 1⟩ : Entry).slug
      = specSlug "Hello World" :=
  C3_slug_from_title ⟨[], [], 1, 1, 0⟩ ⟨"Hello World", "", "# Hi", true, 0, 0⟩
    rfl (by decide)
    ⟨"Hello World", "hello-world", "# Hi", true, 0, 1⟩
    ⟨[⟨"Hello World", "hello-world", "# Hi", true, 0, 1⟩],
      [⟨1, 1, "Hello World\n# Hi"⟩], 2, 2, 0⟩
    (by rw [save_true_eq]
        simp only [Prod.mk.injEq, Except.ok.injEq]
        exact ⟨by decide, by decide⟩)

theorem usi_of_find_none (db : DB) (e : Entry)
    (h : db.fts.find? (fun f => f.entry_id == e.id) = none) :
    Entry.update_search_index db e =
      { db with fts := db.fts ++ [⟨db.nextDocid, e.id, ftsContent e⟩],
                nextDocid := db.nextDocid + 1 } := by
  simp [Entry.update_search_index, h]

theorem usi_of_find_some (db : DB) (e : Entry) (f0 : FTSEntry)
    (h : db.fts.find? (fun f => f.entry_id == e.id) = some f0) :
    Entry.update_search_index db e =
      { db with fts := db.fts.map fun g =>
          if g.docid == f0.docid then { g with content := ftsContent e }
          else g } := by
  simp [Entry.update_search_index, h]

theorem filter_map_update (C : String) (eid : Nat) :
    ∀ fts : List FTSEntry,
      (fts.Pairwise fun a b => a.entry_id ≠ b.entry_id) →
      (fts.Pairwise fun a b => a.docid ≠ b.docid) →
      ∀ f0, f0 ∈ fts → f0.entry_id = eid →
        ((fts.map fun g =>
            if g.docid == f0.docid then { g with content := C } else g).filter
          fun f => f.entry_id == eid) = [{ f0 with content := C }] := by
  intro fts
  induction fts with
  | nil => intro _ _ f0 h; cases h
  | cons a tl ih =>
    intro hp hd f0 hmem heid
    obtain ⟨hpa, hptl⟩ := List.pairwise_cons.mp hp
    obtain ⟨hda, hdtl⟩ := List.pairwise_cons.mp hd
    rcases List.mem_cons.mp hmem with rfl | hmem'
    · simp only [List.map_cons, beq_self_eq_true, if_true]
      rw [List.filter_cons_of_pos (by simpa using heid)]
      have htl : ((tl.map fun g =>
          if g.docid == f0.docid then { g with content := C } else g).filter
            fun f => f.entry_id == eid) = [] := by
        refine List.filter_eq_nil_iff.mpr fun x hx => ?_
        obtain ⟨g, hg, rfl⟩ := List.mem_map.mp hx
        rw [if_neg (by simpa using (hda g hg).symm)]
        simp only [beq_iff_eq]
        exact fun hcontr => hpa g hg (heid.trans hcontr.symm)
      rw [htl]
    · have had : a.docid ≠ f0.docid := hda f0 hmem'
      have hae : a.entry_id ≠ eid := fun h => hpa f0 hmem' (h.trans heid.symm)
      simp only [List.map_cons]
      rw [if_neg (by simpa using had)]
      rw [List.filter_cons_of_neg (by simpa using hae)]
      exact ih hptl hdtl f0 hmem' heid

theorem savedDocid_of_mem (db : DB) (eid : Nat)
    (heids : db.fts.Pairwise fun a b => a.entry_id ≠ b.entry_id)
    {f0 : FTSEntry} (hmem : f0 ∈ db.fts) (heid : f0.entry_id = eid) :
    savedDocid db eid = f0.docid := by
  cases hfind : db.fts.find? fun f => f.entry_id == eid with
  | none =>
    exact absurd (by simpa using heid) (List.find?_eq_none.mp hfind f0 hmem)
  | some g =>
    have hgmem := List.mem_of_find?_eq_some hfind
    have hgeid : g.entry_id = eid := by simpa using List.find?_some hfind
    have hge : g = f0 := eq_of_pairwise_key FTSEntry.entry_id heids hgmem hmem
      (hgeid.trans heid.symm)
    simp [savedDocid, hfind, hge]

theorem usi_filter (db : DB) (e : Entry)
    (heids : db.fts.Pairwise fun a b => a.entry_id ≠ b.entry_id)
    (hdocids : db.fts.Pairwise fun a b => a.docid ≠ b.docid) :
    ((Entry.update_search_index db e).fts.filter
      fun f => f.entry_id == e.id) =
      [⟨savedDocid db e.id, e.id, ftsContent e⟩] := by
  cases hfind : db.fts.find? fun f => f.entry_id == e.id with
  | none =>
    rw [usi_of_find_none db e hfind]
    simp only [List.filter_append]
    rw [List.filter_eq_nil_iff.mpr fun f hf => List.find?_eq_none.mp hfind f hf]
    simp [savedDocid, hfind]
  | some f0 =>
    rw [usi_of_find_some db e f0 hfind]
    have hf0mem := List.mem_of_find?_eq_some hfind
    have hf0eid : f0.entry_id = e.id := by simpa using List.find?_some hfind
    have hupd := filter_map_update (ftsContent e) e.id db.fts heids hdocids
      f0 hf0mem hf0eid
    simp only [hupd]
    simp [savedDocid, hfind, hf0eid]

theorem saveEntryWrite_fst_title (db : DB) (e : Entry) :
    (Entry.saveEntryWrite db e).1.title = e.title := by
  by_cases hs : e.slug = "" <;> by_cases hid : e.id = 0 <;>
    simp [Entry.saveEntryWrite, hs, hid]

theorem saveEntryWrite_fst_content (db : DB) (e : Entry) :
    (Entry.saveEntryWrite db e).1.content = e.content := by
  by_cases hs : e.slug = "" <;> by_cases hid : e.id = 0 <;>
    simp [Entry.saveEntryWrite, hs, hid]

theorem saveEntryWrite_fst_id (db : DB) (e : Entry) :
    (Entry.saveEntryWrite db e).1.id = if e.id = 0 then db.nextId else e.id := by
  by_cases hs : e.slug = "" <;> by_cases hid : e.id = 0 <;>
    simp [Entry.saveEntryWrite, hs, hid]

theorem saveEntryWrite_snd_fts (db : DB) (e : Entry) :
    (Entry.saveEntryWrite db e).2.fts = db.fts := by
  by_cases hs : e.slug = "" <;> by_cases hid : e.id = 0 <;>
    simp [Entry.saveEntryWrite, hs, hid]

theorem saveEntryWrite_snd_nextDocid (db : DB) (e : Entry) :
    (Entry.saveEntryWrite db e).2.nextDocid = db.nextDocid := by
  by_cases hs : e.slug = "" <;> by_cases hid : e.id = 0 <;>
    simp [Entry.saveEntryWrite, hs, hid]

theorem saveEntryWrite_snd_nextId (db : DB) (e : Entry) :
    (Entry.saveEntryWrite db e).2.nextId =
      if e.id = 0 then db.nextId + 1 else db.nextId := by
  by_cases hs : e.slug = "" <;> by_cases hid : e.id = 0 <;>
    simp [Entry.saveEntryWrite, hs, hid]

theorem saveOk_eq (db : DB) (e : Entry) :
    Entry.saveOk db e = ((Entry.saveEntryWrite db e).1,
      Entry.update_search_index (Entry.saveEntryWrite db e).2
        (Entry.saveEntryWrite db e).1) := by
  cases hw : Entry.saveEntryWrite db e with
  | mk s d => simp [Entry.saveOk, hw]

theorem savedDocid_congr (db1 db : DB) (x : Nat)
    (hfts : db1.fts = db.fts) (hnd : db1.nextDocid = db.nextDocid) :
    savedDocid db1 x = savedDocid db x := by
  simp only [savedDocid, hfts, hnd]

theorem IndexWf_saveEntryWrite (db : DB) (e : Entry) (hwf : IndexWf db) :
    IndexWf (Entry.saveEntryWrite db e).2 := by
  have hfts := saveEntryWrite_snd_fts db e
  have hnd := saveEntryWrite_snd_nextDocid db e
  have hni := saveEntryWrite_snd_nextId db e
  refine ⟨?_, ?_, ?_, ?_⟩
  · rw [hfts]; exact hwf.eids
  · rw [hfts]; exact hwf.docids
  · intro f hf; rw [hnd]; exact hwf.docid_lt f (by rwa [hfts] at hf)
  · intro f hf
    rw [hni]
    have := hwf.eid_lt f (by rwa [hfts] at hf)
    by_cases h0 : e.id = 0
    · simp only [h0, if_true]; exact Nat.lt_succ_of_lt this
    · simp only [h0, if_false]; exact this

theorem usi_wf (db : DB) (e : Entry) (hwf : IndexWf db)
    (hid : e.id < db.nextId) :
    IndexWf (Entry.update_search_index db e) := by
  cases hfind : db.fts.find? fun f => f.entry_id == e.id with
  | none =>
    rw [usi_of_find_none db e hfind]
    have hfresh : ∀ f ∈ db.fts, f.entry_id ≠ e.id := fun f hf => by
      simpa using List.find?_eq_none.mp hfind f hf
    refine ⟨?_, ?_, ?_, ?_⟩
    · refine List.pairwise_append.mpr ⟨hwf.eids, List.pairwise_singleton _ _, ?_⟩
      intro a ha b hb
      rw [List.mem_singleton.mp hb]
      exact hfresh a ha
    · refine List.pairwise_append.mpr ⟨hwf.docids, List.pairwise_singleton _ _, ?_⟩
      intro a ha b hb
      rw [List.mem_singleton.mp hb]
      exact Nat.ne_of_lt (hwf.docid_lt a ha)
    · intro f hf
      rcases List.mem_append.mp hf with hf' | hf'
      · exact Nat.lt_succ_of_lt (hwf.docid_lt f hf')
      · rw [List.mem_singleton.mp hf']; exact Nat.lt_succ_self _
    · intro f hf
      rcases List.mem_append.mp hf with hf' | hf'
      · exact hwf.eid_lt f hf'
      · rw [List.mem_singleton.mp hf']; exact hid
  | some f0 =>
    rw [usi_of_find_some db e f0 hfind]
    have hupd_eid : ∀ g : FTSEntry,
        ((if g.docid == f0.docid then { g with content := ftsContent e }
          else g) : FTSEntry).entry_id = g.entry_id := by
      intro g; by_cases h : (g.docid == f0.docid) = true <;> simp [h]
    have hupd_doc : ∀ g : FTSEntry,
        ((if g.docid == f0.docid then { g with content := ftsContent e }
          else g) : FTSEntry).docid = g.docid := by
      intro g; by_cases h : (g.docid == f0.docid) = true <;> simp [h]
    refine ⟨?_, ?_, ?_, ?_⟩
    · rw [List.pairwise_map]
      simp only [hupd_eid]
      exact hwf.eids
    · rw [List.pairwise_map]
      simp only [hupd_doc]
      exact hwf.docids
    · intro f hf
      obtain ⟨g, hg, rfl⟩ := List.mem_map.mp hf
      rw [hupd_doc]
      exact hwf.docid_lt g hg
    · intro f hf
      obtain ⟨g, hg, rfl⟩ := List.mem_map.mp hf
      rw [hupd_eid]
      exact hwf.eid_lt g hg

/-- C1: after any successful save of entry E into a well-formed index,
exactly one search document carries entry_id = E.id — the filter of the
index on that id is the single row whose content is E.title, a line break
and E.content — its docid is the docid of the document E already had if one
existed (the update path overwrites in place instead of inserting a
duplicate), and index well-formedness is preserved, so the guarantee
carries over to every later save, in particular to a second save of E with
different content. -/
theorem C1_single_search_document (db : DB) (e : Entry) (hwf : IndexWf db)
    (hid : e.id = 0 ∨ e.id < db.nextId) :
    ∀ e' db', Entry.save true db e = (.ok e', db') →
      e'.title = e.title ∧ e'.content = e.content ∧
      db'.fts.filter (fun f => f.entry_id == e'.id) =
        [⟨savedDocid db e'.id, e'.id, ftsContent e'⟩] ∧
      (∀ f0 ∈ db.fts, f0.entry_id = e'.id → savedDocid db e'.id = f0.docid) ∧
      IndexWf db' := by
  intro e' db' h
  rw [save_true_eq db e, saveOk_eq db e] at h
  simp only [Prod.mk.injEq, Except.ok.injEq] at h
  obtain ⟨he', hdb'⟩ := h
  subst he' hdb'
  have hfts := saveEntryWrite_snd_fts db e
  have hnd := saveEntryWrite_snd_nextDocid db e
  have hni := saveEntryWrite_snd_nextId db e
  have hsid := saveEntryWrite_fst_id db e
  have hwf1 : IndexWf (Entry.saveEntryWrite db e).2 :=
    IndexWf_saveEntryWrite db e hwf
  have hcongr : savedDocid (Entry.saveEntryWrite db e).2
        (Entry.saveEntryWrite db e).1.id =
      savedDocid db (Entry.saveEntryWrite db e).1.id :=
    savedDocid_congr _ _ _ hfts hnd
  refine ⟨saveEntryWrite_fst_title db e, saveEntryWrite_fst_content db e,
    ?_, ?_, ?_⟩
  · have hfl := usi_filter (Entry.saveEntryWrite db e).2
      (Entry.saveEntryWrite db e).1 hwf1.eids hwf1.docids
    rw [hfl, hcongr]
  · intro f0 hf0 heid
    exact savedDocid_of_mem db _ hwf.eids hf0 heid
  · apply usi_wf _ _ hwf1
    rw [hsid, hni]
    by_cases h0 : e.id = 0
    · simp only [h0, if_true]
      exact Nat.lt_succ_self _
    · simp only [h0, if_false]
      rcases hid with h0' | hlt
      · exact absurd h0' h0
      · exact hlt

theorem C1_single_search_document_witness :
    ((⟨[⟨"T", "t", "C", true, 0, 1⟩], [⟨1, 1, "T\nC"⟩], 2, 2, 0⟩ : DB).fts.filter
      fun f => f.entry_id == 1) =
      [⟨savedDocid ⟨[], [], 1, 1, 0⟩ 1, 1, ftsContent ⟨"T", "t", "C", true, 0, 1⟩⟩] := by
  have h := C1_single_search_document ⟨[], [], 1, 1, 0⟩ ⟨"T", "", "C", true, 0, 0⟩
    ⟨by simp, by simp, by simp, by simp⟩ (Or.inl rfl)
    ⟨"T", "t", "C", true, 0, 1⟩
    ⟨[⟨"T", "t", "C", true, 0, 1⟩], [⟨1, 1, "T\nC"⟩], 2, 2, 0⟩
    (by rw [save_true_eq]
        simp only [Prod.mk.injEq, Except.ok.injEq]
        exact ⟨by decide, by decide⟩)
  exact h.2.2.1
